import Mathlib

/-!
# Verification of the ESP32 attendance firmware communication and session core

A shallow embedding of the firmware's frame codec (`ble_server.py`:
`_handle_write`, `_send_chunked_response`), persistent store
(`data_manager.py`), command dispatcher (`ble_server.py`:
`_process_complete_message`, `_handle_command_write`) and session state
machine (`main.py`), together with theorems settling the specification
claims about them.

Conventions:
* Byte strings are `List Nat` (each element `< 256` for well-formed data).
* Python (unicode) strings are `List Nat` of codepoints.
* Python's `bytes.decode('utf-8')` / `str.encode('utf-8')` are modelled by
  an explicit UTF-8 codec (`utf8Decode` / `utf8Encode`) following the
  standard: multi-byte sequences, rejection of overlong forms, surrogates
  and out-of-range codepoints, and failure on a truncated final sequence —
  the same success/failure behaviour as CPython's strict UTF-8 codec.
-/

/-- A Unicode scalar value: what a Python `str` element can be. -/
def ValidCodepoint (c : Nat) : Prop :=
  c < 0x110000 ∧ (c < 0xD800 ∨ 0xE000 ≤ c)

instance (c : Nat) : Decidable (ValidCodepoint c) := by
  unfold ValidCodepoint; infer_instance

/-- UTF-8 encoding of a single codepoint (model of CPython's encoder). -/
def utf8EncodeChar (c : Nat) : List Nat :=
  if c < 0x80 then [c]
  else if c < 0x800 then [0xC0 + c / 64, 0x80 + c % 64]
  else if c < 0x10000 then
    [0xE0 + c / 4096, 0x80 + (c / 64) % 64, 0x80 + c % 64]
  else
    [0xF0 + c / 262144, 0x80 + (c / 4096) % 64, 0x80 + (c / 64) % 64,
      0x80 + c % 64]

/-- UTF-8 encoding of a string of codepoints (`str.encode('utf-8')`). -/
def utf8Encode : List Nat → List Nat
  | [] => []
  | c :: cs => utf8EncodeChar c ++ utf8Encode cs

/-- Consume one UTF-8 continuation byte, shifting it into the value
accumulated so far. -/
def utf8Cont (v : Nat) : List Nat → Option (Nat × List Nat)
  | b :: rest =>
    if 0x80 ≤ b ∧ b < 0xC0 then some (v * 64 + (b - 0x80), rest) else none
  | [] => none

/-- Decode one UTF-8 character from a leading byte `b0` and the remaining
bytes, rejecting overlong forms, surrogates and out-of-range values. -/
def utf8DecodeChar (b0 : Nat) (bs : List Nat) : Option (Nat × List Nat) :=
  if b0 < 0x80 then some (b0, bs)
  else if b0 < 0xC2 then none
  else if b0 < 0xE0 then utf8Cont (b0 - 0xC0) bs
  else if b0 < 0xF0 then
    (utf8Cont (b0 - 0xE0) bs).bind fun vr =>
      (utf8Cont vr.1 vr.2).bind fun vr2 =>
        if 0x800 ≤ vr2.1 ∧ ¬(0xD800 ≤ vr2.1 ∧ vr2.1 < 0xE000) then
          some vr2
        else none
  else if b0 < 0xF5 then
    (utf8Cont (b0 - 0xF0) bs).bind fun vr =>
      (utf8Cont vr.1 vr.2).bind fun vr2 =>
        (utf8Cont vr2.1 vr2.2).bind fun vr3 =>
          if 0x10000 ≤ vr3.1 ∧ vr3.1 < 0x110000 then some vr3 else none
  else none

/-- Decode one UTF-8 character from the front of a byte string. -/
def utf8DecodeCharL : List Nat → Option (Nat × List Nat)
  | [] => none
  | b0 :: bs => utf8DecodeChar b0 bs

/-- Fuel-driven UTF-8 decoding loop; one unit of fuel per character is
enough because every character consumes at least one byte. -/
def utf8DecodeLoop : Nat → List Nat → Option (List Nat)
  | _, [] => some []
  | 0, _ :: _ => none
  | fuel + 1, b0 :: bs =>
    match utf8DecodeChar b0 bs with
    | none => none
    | some (c, rest) => (utf8DecodeLoop fuel rest).map (c :: ·)

/-- Strict UTF-8 decoding (`bytes.decode('utf-8')`): `none` models
`UnicodeDecodeError` (truncated sequence, stray continuation byte,
overlong form, surrogate, out-of-range). -/
def utf8Decode (b : List Nat) : Option (List Nat) := utf8DecodeLoop b.length b

example : utf8Decode (utf8Encode [97, 233, 0x4E2D, 0x1F600]) =
    some [97, 233, 0x4E2D, 0x1F600] := by decide

example : utf8Decode [0xC3] = none := by decide

example : utf8Encode [97, 233] = [97, 0xC3, 0xA9] := by decide

theorem utf8Cont_eq_some {v : Nat} {bs : List Nat} {c : Nat}
    {rest : List Nat} (h : utf8Cont v bs = some (c, rest)) :
    ∃ b1, bs = b1 :: rest ∧ 0x80 ≤ b1 ∧ b1 < 0xC0 ∧
      c = v * 64 + (b1 - 0x80) := by
  cases bs with
  | nil => simp [utf8Cont] at h
  | cons b1 t =>
    simp only [utf8Cont] at h
    by_cases hb : 0x80 ≤ b1 ∧ b1 < 0xC0
    · rw [if_pos hb] at h
      simp only [Option.some.injEq, Prod.mk.injEq] at h
      obtain ⟨hc, ht⟩ := h
      exact ⟨b1, by rw [ht], hb.1, hb.2, hc.symm⟩
    · simp [if_neg hb] at h

theorem utf8DecodeChar_length {b0 : Nat} {bs : List Nat} {c : Nat}
    {rest : List Nat} (h : utf8DecodeChar b0 bs = some (c, rest)) :
    rest.length ≤ bs.length := by
  unfold utf8DecodeChar at h
  split_ifs at h
  · simp only [Option.some.injEq, Prod.mk.injEq] at h
    rw [h.2]
  · obtain ⟨b1, hbs, _, _, _⟩ := utf8Cont_eq_some h
    subst hbs; simp
  · cases h1 : utf8Cont (b0 - 0xE0) bs with
    | none => rw [h1] at h; simp at h
    | some vr =>
      rw [h1] at h; simp only [Option.some_bind] at h
      cases h2 : utf8Cont vr.1 vr.2 with
      | none => rw [h2] at h; simp at h
      | some vr2 =>
        rw [h2] at h; simp only [Option.some_bind] at h
        split_ifs at h
        simp only [Option.some.injEq] at h
        obtain ⟨b1, hbs1, _, _, _⟩ := utf8Cont_eq_some h1
        obtain ⟨b2, hbs2, _, _, _⟩ := utf8Cont_eq_some h2
        have hr : rest = vr2.2 := by rw [h]
        subst hbs1; rw [hr, hbs2]
        simp only [List.length_cons]; omega
  · cases h1 : utf8Cont (b0 - 0xF0) bs with
    | none => rw [h1] at h; simp at h
    | some vr =>
      rw [h1] at h; simp only [Option.some_bind] at h
      cases h2 : utf8Cont vr.1 vr.2 with
      | none => rw [h2] at h; simp at h
      | some vr2 =>
        rw [h2] at h; simp only [Option.some_bind] at h
        cases h3 : utf8Cont vr2.1 vr2.2 with
        | none => rw [h3] at h; simp at h
        | some vr3 =>
          rw [h3] at h; simp only [Option.some_bind] at h
          split_ifs at h
          simp only [Option.some.injEq] at h
          obtain ⟨b1, hbs1, _, _, _⟩ := utf8Cont_eq_some h1
          obtain ⟨b2, hbs2, _, _, _⟩ := utf8Cont_eq_some h2
          obtain ⟨b3, hbs3, _, _, _⟩ := utf8Cont_eq_some h3
          have hr : rest = vr3.2 := by rw [h]
          subst hbs1; rw [hr, hbs2, hbs3]
          simp only [List.length_cons]; omega

theorem utf8EncodeChar_ne_nil (c : Nat) : utf8EncodeChar c ≠ [] := by
  unfold utf8EncodeChar
  split_ifs <;> simp

/-- Decoding a validly encoded character from the front of a byte string
consumes exactly that character. -/
theorem utf8DecodeCharL_encode (c : Nat) (hc : ValidCodepoint c)
    (rest : List Nat) :
    utf8DecodeCharL (utf8EncodeChar c ++ rest) = some (c, rest) := by
  obtain ⟨h1, h2⟩ := hc
  by_cases hA : c < 0x80
  · simp only [utf8EncodeChar, if_pos hA, List.cons_append, List.nil_append,
      utf8DecodeCharL, utf8DecodeChar]
  · by_cases hB : c < 0x800
    · simp only [utf8EncodeChar, if_neg hA, if_pos hB, List.cons_append,
        List.nil_append, utf8DecodeCharL, utf8DecodeChar]
      rw [if_neg (by omega), if_neg (by omega), if_pos (by omega)]
      simp only [utf8Cont]
      rw [if_pos (by omega)]
      have hv : (0xC0 + c / 64 - 0xC0) * 64 + (0x80 + c % 64 - 0x80) = c := by
        omega
      rw [hv]
    · by_cases hC : c < 0x10000
      · simp only [utf8EncodeChar, if_neg hA, if_neg hB, if_pos hC,
          List.cons_append, List.nil_append, utf8DecodeCharL, utf8DecodeChar]
        rw [if_neg (by omega), if_neg (by omega), if_neg (by omega),
          if_pos (by omega)]
        simp only [utf8Cont]
        rw [if_pos (by omega)]
        simp only [Option.some_bind]
        rw [if_pos (by omega)]
        simp only [Option.some_bind]
        rw [if_pos (by constructor <;> omega)]
        have hv : ((0xE0 + c / 4096 - 0xE0) * 64 +
            (0x80 + c / 64 % 64 - 0x80)) * 64 + (0x80 + c % 64 - 0x80) = c := by
          omega
        rw [hv]
      · simp only [utf8EncodeChar, if_neg hA, if_neg hB, if_neg hC,
          List.cons_append, List.nil_append, utf8DecodeCharL, utf8DecodeChar]
        rw [if_neg (by omega), if_neg (by omega), if_neg (by omega),
          if_neg (by omega), if_pos (by omega)]
        simp only [utf8Cont]
        rw [if_pos (by omega)]
        simp only [Option.some_bind]
        rw [if_pos (by omega)]
        simp only [Option.some_bind]
        rw [if_pos (by omega)]
        simp only [Option.some_bind]
        rw [if_pos (by constructor <;> omega)]
        have hv : (((0xF0 + c / 262144 - 0xF0) * 64 +
            (0x80 + c / 4096 % 64 - 0x80)) * 64 +
            (0x80 + c / 64 % 64 - 0x80)) * 64 + (0x80 + c % 64 - 0x80) = c := by
          omega
        rw [hv]

/-- A successful character decode is the decode of a valid encoding. -/
theorem utf8DecodeChar_sound {b0 : Nat} {bs : List Nat} {c : Nat}
    {rest : List Nat} (h : utf8DecodeChar b0 bs = some (c, rest)) :
    ValidCodepoint c ∧ utf8EncodeChar c ++ rest = b0 :: bs := by
  unfold utf8DecodeChar at h
  split_ifs at h with hA hB hC hD
  · simp only [Option.some.injEq, Prod.mk.injEq] at h
    obtain ⟨rfl, rfl⟩ := h
    refine ⟨⟨by omega, by omega⟩, ?_⟩
    simp [utf8EncodeChar, if_pos hA]
  · obtain ⟨b1, hbs, hb1a, hb1b, hcv⟩ := utf8Cont_eq_some h
    subst hbs
    have hchi : c < 0x800 := by omega
    have hclo : 0x80 ≤ c := by omega
    refine ⟨⟨by omega, by omega⟩, ?_⟩
    simp only [utf8EncodeChar, if_neg (by omega : ¬c < 0x80), if_pos hchi,
      List.cons_append, List.nil_append]
    have e1 : 0xC0 + c / 64 = b0 := by omega
    have e2 : 0x80 + c % 64 = b1 := by omega
    rw [e1, e2]
  · cases h1 : utf8Cont (b0 - 0xE0) bs with
    | none => rw [h1] at h; simp at h
    | some vr =>
      rw [h1] at h; simp only [Option.some_bind] at h
      cases h2 : utf8Cont vr.1 vr.2 with
      | none => rw [h2] at h; simp at h
      | some vr2 =>
        rw [h2] at h; simp only [Option.some_bind] at h
        split_ifs at h with hcond
        simp only [Option.some.injEq] at h
        obtain ⟨b1, hbs1, hb1a, hb1b, hv1⟩ := utf8Cont_eq_some h1
        obtain ⟨b2, hbs2, hb2a, hb2b, hv2⟩ := utf8Cont_eq_some h2
        have hc1 : c = vr2.1 := by rw [h]
        have hr : rest = vr2.2 := by rw [h]
        have hchi : c < 0x10000 := by omega
        have hclo : 0x800 ≤ c := by omega
        refine ⟨⟨by omega, by omega⟩, ?_⟩
        simp only [utf8EncodeChar, if_neg (by omega : ¬c < 0x80),
          if_neg (by omega : ¬c < 0x800), if_pos hchi,
          List.cons_append, List.nil_append]
        have e1 : 0xE0 + c / 4096 = b0 := by omega
        have e2 : 0x80 + c / 64 % 64 = b1 := by omega
        have e3 : 0x80 + c % 64 = b2 := by omega
        rw [e1, e2, e3, hr, hbs1, hbs2]
  · cases h1 : utf8Cont (b0 - 0xF0) bs with
    | none => rw [h1] at h; simp at h
    | some vr =>
      rw [h1] at h; simp only [Option.some_bind] at h
      cases h2 : utf8Cont vr.1 vr.2 with
      | none => rw [h2] at h; simp at h
      | some vr2 =>
        rw [h2] at h; simp only [Option.some_bind] at h
        cases h3 : utf8Cont vr2.1 vr2.2 with
        | none => rw [h3] at h; simp at h
        | some vr3 =>
          rw [h3] at h; simp only [Option.some_bind] at h
          split_ifs at h with hcond
          simp only [Option.some.injEq] at h
          obtain ⟨b1, hbs1, hb1a, hb1b, hv1⟩ := utf8Cont_eq_some h1
          obtain ⟨b2, hbs2, hb2a, hb2b, hv2⟩ := utf8Cont_eq_some h2
          obtain ⟨b3, hbs3, hb3a, hb3b, hv3⟩ := utf8Cont_eq_some h3
          have hc1 : c = vr3.1 := by rw [h]
          have hr : rest = vr3.2 := by rw [h]
          have hchi : c < 0x110000 := by omega
          have hclo : 0x10000 ≤ c := by omega
          refine ⟨⟨by omega, by omega⟩, ?_⟩
          simp only [utf8EncodeChar, if_neg (by omega : ¬c < 0x80),
            if_neg (by omega : ¬c < 0x800), if_neg (by omega : ¬c < 0x10000),
            List.cons_append, List.nil_append]
          have e1 : 0xF0 + c / 262144 = b0 := by omega
          have e2 : 0x80 + c / 4096 % 64 = b1 := by omega
          have e3 : 0x80 + c / 64 % 64 = b2 := by omega
          have e4 : 0x80 + c % 64 = b3 := by omega
          rw [e1, e2, e3, e4, hr, hbs1, hbs2, hbs3]

/-- Any fuel at least the byte length gives the same decoding result. -/
theorem utf8DecodeLoop_congr :
    ∀ f1 f2 (b : List Nat), b.length ≤ f1 → b.length ≤ f2 →
      utf8DecodeLoop f1 b = utf8DecodeLoop f2 b := by
  intro f1
  induction f1 with
  | zero =>
    intro f2 b h1 h2
    cases b with
    | nil => cases f2 <;> rfl
    | cons b0 bs => simp at h1
  | succ f ih =>
    intro f2 b h1 h2
    cases b with
    | nil => cases f2 <;> rfl
    | cons b0 bs =>
      cases f2 with
      | zero => simp at h2
      | succ f2' =>
        simp only [utf8DecodeLoop]
        cases hd : utf8DecodeChar b0 bs with
        | none => rfl
        | some p =>
          obtain ⟨cp, rest⟩ := p
          have hlen := utf8DecodeChar_length hd
          simp only [List.length_cons] at h1 h2
          simp only [ih f2' rest (by omega) (by omega)]

/-- Decoding a validly encoded prefix consumes exactly that prefix. -/
theorem utf8Decode_encode_append (u : List Nat)
    (hu : ∀ c ∈ u, ValidCodepoint c) (b : List Nat) :
    utf8Decode (utf8Encode u ++ b) = (utf8Decode b).map (u ++ ·) := by
  induction u with
  | nil => cases hb : utf8Decode b <;> simp [utf8Encode, hb]
  | cons c cs ih =>
    have hc : ValidCodepoint c := hu c (by simp)
    have hcs : ∀ x ∈ cs, ValidCodepoint x := fun x hx =>
      hu x (List.mem_cons_of_mem _ hx)
    obtain ⟨e0, es, he⟩ : ∃ e0 es, utf8EncodeChar c = e0 :: es := by
      rcases hne : utf8EncodeChar c with _ | ⟨e0, es⟩
      · exact absurd hne (utf8EncodeChar_ne_nil c)
      · exact ⟨e0, es, rfl⟩
    have hdc : utf8DecodeChar e0 (es ++ (utf8Encode cs ++ b)) =
        some (c, utf8Encode cs ++ b) := by
      have h0 := utf8DecodeCharL_encode c hc (utf8Encode cs ++ b)
      rw [he] at h0
      simpa [utf8DecodeCharL, List.cons_append] using h0
    simp only [utf8Encode, List.append_assoc, he, List.cons_append]
    show utf8DecodeLoop
      ((e0 :: (es ++ (utf8Encode cs ++ b))).length)
      (e0 :: (es ++ (utf8Encode cs ++ b))) = _
    simp only [List.length_cons, utf8DecodeLoop]
    have hfl : utf8DecodeLoop (es ++ (utf8Encode cs ++ b)).length
        (utf8Encode cs ++ b) = utf8Decode (utf8Encode cs ++ b) :=
      utf8DecodeLoop_congr _ _ _ (by simp) (le_refl _)
    simp only [hdc, hfl, ih hcs]
    cases utf8Decode b <;> simp

/-- Round trip: decoding the encoding of a valid string gives it back. -/
theorem utf8Decode_encode (u : List Nat) (hu : ∀ c ∈ u, ValidCodepoint c) :
    utf8Decode (utf8Encode u) = some u := by
  have h := utf8Decode_encode_append u hu []
  have h0 : utf8Decode ([] : List Nat) = some [] := rfl
  rw [h0] at h
  simpa using h

theorem utf8DecodeLoop_sound :
    ∀ fuel (b : List Nat) s, utf8DecodeLoop fuel b = some s →
      utf8Encode s = b ∧ ∀ c ∈ s, ValidCodepoint c := by
  intro fuel
  induction fuel with
  | zero =>
    intro b s h
    cases b with
    | nil =>
      simp only [utf8DecodeLoop, Option.some.injEq] at h
      subst h; exact ⟨rfl, by simp⟩
    | cons b0 bs => simp [utf8DecodeLoop] at h
  | succ f ih =>
    intro b s h
    cases b with
    | nil =>
      simp only [utf8DecodeLoop, Option.some.injEq] at h
      subst h; exact ⟨rfl, by simp⟩
    | cons b0 bs =>
      simp only [utf8DecodeLoop] at h
      cases hd : utf8DecodeChar b0 bs with
      | none => simp [hd] at h
      | some p =>
        obtain ⟨cp, rest⟩ := p
        simp only [hd] at h
        cases hl : utf8DecodeLoop f rest with
        | none => rw [hl] at h; simp at h
        | some s2 =>
          rw [hl] at h
          simp only [Option.map_some', Option.some.injEq] at h
          subst h
          obtain ⟨henc, hval⟩ := ih rest s2 hl
          obtain ⟨hcp, hbytes⟩ := utf8DecodeChar_sound hd
          refine ⟨?_, ?_⟩
          · show utf8EncodeChar cp ++ utf8Encode s2 = b0 :: bs
            rw [henc, hbytes]
          · intro x hx
            rcases List.mem_cons.mp hx with rfl | hx2
            · exact hcp
            · exact hval x hx2

/-- A successful decode is the decode of a valid encoding. -/
theorem utf8Decode_sound {b s : List Nat} (h : utf8Decode b = some s) :
    utf8Encode s = b ∧ ∀ c ∈ s, ValidCodepoint c :=
  utf8DecodeLoop_sound _ b s h

theorem mem_utf8EncodeChar_ten {c : Nat} (h : 10 ∈ utf8EncodeChar c) :
    c = 10 := by
  unfold utf8EncodeChar at h
  split_ifs at h <;> simp at h <;> omega

theorem ten_mem_utf8Encode {s : List Nat} :
    10 ∈ utf8Encode s ↔ 10 ∈ s := by
  induction s with
  | nil => simp [utf8Encode]
  | cons c cs ih =>
    simp only [utf8Encode, List.mem_append, List.mem_cons, ih]
    constructor
    · rintro (h | h)
      · exact Or.inl (mem_utf8EncodeChar_ten h).symm
      · exact Or.inr h
    · rintro (rfl | h)
      · exact Or.inl (by simp [utf8EncodeChar])
      · exact Or.inr h

/-! ## Newline splitting and Python string helpers -/

/-- Python `text.split(chr(10))` on a list of codepoints (also reused on
byte strings, where the byte 10 is the separator): `"a\nb".split` gives
`["a","b"]`, a trailing separator gives a trailing empty segment, and the
empty string gives `[""]`. -/
def splitOnNl : List Nat → List (List Nat)
  | [] => [[]]
  | c :: cs =>
    if c = 10 then [] :: splitOnNl cs
    else
      match splitOnNl cs with
      | [] => [[c]]
      | h :: t => (c :: h) :: t

/-- Concatenation of segments, each terminated by the newline separator. -/
def nlJoin : List (List Nat) → List Nat
  | [] => []
  | t :: ts => (t ++ [10]) ++ nlJoin ts

/-- Concatenation of a list of byte chunks. -/
def catChunks : List (List Nat) → List Nat
  | [] => []
  | c :: cs => c ++ catChunks cs

theorem splitOnNl_ne_nil (s : List Nat) : splitOnNl s ≠ [] := by
  cases s with
  | nil => simp [splitOnNl]
  | cons c cs =>
    simp only [splitOnNl]
    split_ifs
    · simp
    · cases splitOnNl cs <;> simp

/-- Python `messages[:-1]`: all segments except the last. -/
def initSegs : List (List Nat) → List (List Nat)
  | [] => []
  | [_] => []
  | t :: ts => t :: initSegs ts

/-- Python `messages[-1]`: the last segment (`[]` on an empty list, which
cannot occur for the result of a split). -/
def lastSeg : List (List Nat) → List Nat
  | [] => []
  | [t] => t
  | _ :: ts => lastSeg ts

theorem lastSeg_mem : ∀ (l : List (List Nat)), l ≠ [] → lastSeg l ∈ l := by
  intro l
  induction l with
  | nil => intro h; exact absurd rfl h
  | cons x xs ih =>
    intro _
    cases hxs : xs with
    | nil => subst hxs; simp [lastSeg]
    | cons y ys =>
      subst hxs
      exact List.mem_cons_of_mem _ (ih (by simp))

theorem initSegs_subset : ∀ (l : List (List Nat)), ∀ t ∈ initSegs l, t ∈ l := by
  intro l
  induction l with
  | nil => intro t ht; simp [initSegs] at ht
  | cons x xs ih =>
    intro t ht
    cases hxs : xs with
    | nil => subst hxs; simp [initSegs] at ht
    | cons y ys =>
      subst hxs
      simp only [initSegs] at ht
      rcases List.mem_cons.mp ht with rfl | h2
      · simp
      · exact List.mem_cons_of_mem _ (ih t h2)

theorem initSegs_concat (xs : List (List Nat)) (x : List Nat) :
    initSegs (xs ++ [x]) = xs := by
  induction xs with
  | nil => rfl
  | cons y ys ih =>
    cases ys with
    | nil => rfl
    | cons z zs =>
      show y :: initSegs ((z :: zs) ++ [x]) = y :: z :: zs
      rw [ih]

theorem lastSeg_concat (xs : List (List Nat)) (x : List Nat) :
    lastSeg (xs ++ [x]) = x := by
  induction xs with
  | nil => rfl
  | cons y ys ih =>
    cases ys with
    | nil => rfl
    | cons z zs =>
      show lastSeg ((z :: zs) ++ [x]) = x
      exact ih

theorem splitOnNl_nlfree {s : List Nat} :
    ∀ t ∈ splitOnNl s, 10 ∉ t := by
  induction s with
  | nil => intro t ht; simp [splitOnNl] at ht; simp [ht]
  | cons c cs ih =>
    intro t ht
    simp only [splitOnNl] at ht
    split_ifs at ht with hc
    · rcases List.mem_cons.mp ht with rfl | h2
      · simp
      · exact ih t h2
    · cases hsp : splitOnNl cs with
      | nil => exact absurd hsp (splitOnNl_ne_nil cs)
      | cons h0 t0 =>
        rw [hsp] at ht
        rcases List.mem_cons.mp ht with rfl | h2
        · intro hmem
          rcases List.mem_cons.mp hmem with h10 | h10
          · exact hc h10.symm
          · exact ih h0 (by rw [hsp]; simp) h10
        · exact ih t (by rw [hsp]; exact List.mem_cons_of_mem _ h2)

theorem splitOnNl_subset {s : List Nat} :
    ∀ t ∈ splitOnNl s, ∀ x ∈ t, x ∈ s := by
  induction s with
  | nil => intro t ht; simp [splitOnNl] at ht; simp [ht]
  | cons c cs ih =>
    intro t ht x hx
    simp only [splitOnNl] at ht
    split_ifs at ht with hc
    · rcases List.mem_cons.mp ht with rfl | h2
      · simp at hx
      · exact List.mem_cons_of_mem _ (ih t h2 x hx)
    · cases hsp : splitOnNl cs with
      | nil => exact absurd hsp (splitOnNl_ne_nil cs)
      | cons h0 t0 =>
        rw [hsp] at ht
        rcases List.mem_cons.mp ht with rfl | h2
        · rcases List.mem_cons.mp hx with rfl | h2
          · simp
          · exact List.mem_cons_of_mem _
              (ih h0 (by rw [hsp]; simp) x h2)
        · exact List.mem_cons_of_mem _
            (ih t (by rw [hsp]; exact List.mem_cons_of_mem _ h2) x hx)

/-- Splitting reconstructs the string: consumed segments, each with its
newline, followed by the final (incomplete) segment. -/
theorem splitOnNl_reconstruct (s : List Nat) :
    nlJoin (initSegs (splitOnNl s)) ++ lastSeg (splitOnNl s) = s := by
  induction s with
  | nil => simp [splitOnNl, initSegs, lastSeg, nlJoin]
  | cons c cs ih =>
    simp only [splitOnNl]
    split_ifs with hc
    · subst hc
      cases hsp : splitOnNl cs with
      | nil => exact absurd hsp (splitOnNl_ne_nil cs)
      | cons h0 t0 =>
        rw [hsp] at ih
        simp only [initSegs, lastSeg, nlJoin]
        simp only [List.nil_append, List.cons_append]
        rw [ih]
    · cases hsp : splitOnNl cs with
      | nil => exact absurd hsp (splitOnNl_ne_nil cs)
      | cons h0 t0 =>
        rw [hsp] at ih
        cases ht0 : t0 with
        | nil =>
          rw [ht0] at ih
          simp only [initSegs, lastSeg, nlJoin, List.nil_append] at ih ⊢
          rw [ih]
        | cons u us =>
          rw [ht0] at ih
          simp only [initSegs, lastSeg, nlJoin, List.cons_append,
            List.append_assoc] at ih ⊢
          rw [ih]

/-- A newline-free string splits into a single segment. -/
theorem splitOnNl_nlfree_eq {t : List Nat} (h : 10 ∉ t) :
    splitOnNl t = [t] := by
  induction t with
  | nil => rfl
  | cons c cs ih =>
    have hc : ¬c = 10 := fun hc => h (by simp [hc])
    have hcs : 10 ∉ cs := fun h2 => h (List.mem_cons_of_mem _ h2)
    simp only [splitOnNl, if_neg hc, ih hcs]

/-- Splitting past a newline-free segment and its separator. -/
theorem splitOnNl_seg_append {t : List Nat} (h : 10 ∉ t) (rest : List Nat) :
    splitOnNl (t ++ 10 :: rest) = t :: splitOnNl rest := by
  induction t with
  | nil => simp [splitOnNl]
  | cons c cs ih =>
    have hc : ¬c = 10 := fun hc => h (by simp [hc])
    have hcs : 10 ∉ cs := fun h2 => h (List.mem_cons_of_mem _ h2)
    simp only [List.cons_append, splitOnNl, if_neg hc]
    have heq : splitOnNl (List.append cs (10 :: rest)) = cs :: splitOnNl rest :=
      ih hcs
    rw [heq]

/-- Splitting past a run of consumed newline-terminated segments. -/
theorem splitOnNl_nlJoin_append {segs : List (List Nat)}
    (h : ∀ t ∈ segs, 10 ∉ t) (v : List Nat) :
    splitOnNl (nlJoin segs ++ v) = segs ++ splitOnNl v := by
  induction segs with
  | nil => simp [nlJoin]
  | cons t ts ih =>
    have ht : 10 ∉ t := h t (by simp)
    have hts : ∀ u ∈ ts, 10 ∉ u := fun u hu => h u (List.mem_cons_of_mem _ hu)
    simp only [nlJoin, List.append_assoc, List.cons_append, List.nil_append]
    rw [splitOnNl_seg_append ht, ih hts]

theorem nlJoin_append (a b : List (List Nat)) :
    nlJoin (a ++ b) = nlJoin a ++ nlJoin b := by
  induction a with
  | nil => simp [nlJoin]
  | cons t ts ih =>
    show (t ++ [10]) ++ nlJoin (ts ++ b) = ((t ++ [10]) ++ nlJoin ts) ++ nlJoin b
    rw [ih]
    simp [List.append_assoc]

theorem utf8Encode_append (a b : List Nat) :
    utf8Encode (a ++ b) = utf8Encode a ++ utf8Encode b := by
  induction a with
  | nil => simp [utf8Encode]
  | cons c cs ih =>
    show utf8EncodeChar c ++ utf8Encode (cs ++ b) =
      (utf8EncodeChar c ++ utf8Encode cs) ++ utf8Encode b
    rw [ih, List.append_assoc]

theorem utf8Encode_nlJoin (l : List (List Nat)) :
    utf8Encode (nlJoin l) = nlJoin (l.map utf8Encode) := by
  induction l with
  | nil => rfl
  | cons t ts ih =>
    simp only [nlJoin, List.map_cons, utf8Encode_append, ih]
    have h10 : utf8Encode [10] = [10] := rfl
    rw [h10]

theorem mem_nlJoin {x : Nat} {l : List (List Nat)} (h : x ∈ nlJoin l) :
    (∃ t ∈ l, x ∈ t) ∨ x = 10 := by
  induction l with
  | nil => simp [nlJoin] at h
  | cons t ts ih =>
    simp only [nlJoin, List.mem_append, List.mem_singleton] at h
    rcases h with (h1 | h1) | h1
    · exact Or.inl ⟨t, by simp, h1⟩
    · exact Or.inr h1
    · rcases ih h1 with ⟨u, hu, hx⟩ | h2
      · exact Or.inl ⟨u, List.mem_cons_of_mem _ hu, hx⟩
      · exact Or.inr h2

/-! ## Frame codec: `AttendanceBLEServer._handle_write` and
`AttendanceBLEServer._send_chunked_response` -/

/-- ASCII whitespace stripped by Python `str.strip()` (space, tab,
newline, vertical tab, form feed, carriage return). -/
def isPySpace (c : Nat) : Bool :=
  c = 32 || c = 9 || c = 10 || c = 11 || c = 12 || c = 13

/-- Python `str.strip()` on a list of codepoints. -/
def pyStrip (s : List Nat) : List Nat :=
  ((s.dropWhile isPySpace).reverse.dropWhile isPySpace).reverse

/-- One complete segment's contribution to the dispatched messages:
`message = messages[i].strip(); if message: ...` — stripped, and skipped
when empty. -/
def dispatchOf (m : List Nat) : Option (List Nat) :=
  if pyStrip m = [] then none else some (pyStrip m)

/-- `_handle_write` for one characteristic's buffer: append the chunk,
try a UTF-8 decode (on failure keep the grown buffer and wait), then if
the decoded text has a newline, dispatch all segments but the last
(stripped, empty ones skipped) and keep the (re-encoded) last segment as
the new buffer; with no newline, keep waiting. Returns the new buffer and
the list of messages passed to `_process_complete_message`. -/
def feed (buf chunk : List Nat) : List Nat × List (List Nat) :=
  let b := buf ++ chunk
  match utf8Decode b with
  | none => (b, [])
  | some s =>
    if 10 ∈ s then
      let msgs := splitOnNl s
      (utf8Encode (lastSeg msgs), (initSegs msgs).filterMap dispatchOf)
    else (b, [])

/-- Feeding a sequence of chunks, accumulating dispatched messages. -/
def feedAll : List Nat → List (List Nat) → List Nat × List (List Nat)
  | buf, [] => (buf, [])
  | buf, c :: cs =>
    let r := feed buf c
    let r2 := feedAll r.1 cs
    (r2.1, r.2 ++ r2.2)

/-- The chunking loop of `_send_chunked_response`
(`for i in range(0, len(response_bytes), chunk_size)` with the newline
appended to the final chunk); fuel-driven, one chunk per fuel unit. -/
def chunkBytesLoop : Nat → List Nat → List (List Nat)
  | 0, bs => [bs ++ [10]]
  | fuel + 1, bs =>
    if bs.length ≤ 100 then [bs ++ [10]]
    else bs.take 100 :: chunkBytesLoop fuel (bs.drop 100)

/-- `_send_chunked_response`: the response string is UTF-8 encoded; a
payload of at most `chunk_size = 100` bytes is sent in one piece (no
newline added); a larger payload is cut into 100-byte chunks with the
newline delimiter appended to the last one. -/
def sendChunkedResponse (response : List Nat) : List (List Nat) :=
  let rb := utf8Encode response
  if rb.length ≤ 100 then [rb]
  else chunkBytesLoop rb.length rb

theorem feed_eq_none {buf chunk : List Nat}
    (h : utf8Decode (buf ++ chunk) = none) :
    feed buf chunk = (buf ++ chunk, []) := by
  simp [feed, h]

theorem feed_eq_no_nl {buf chunk s : List Nat}
    (h : utf8Decode (buf ++ chunk) = some s) (hnl : 10 ∉ s) :
    feed buf chunk = (buf ++ chunk, []) := by
  simp [feed, h, hnl]

theorem feed_eq_nl {buf chunk s : List Nat}
    (h : utf8Decode (buf ++ chunk) = some s) (hnl : 10 ∈ s) :
    feed buf chunk = (utf8Encode (lastSeg (splitOnNl s)),
      (initSegs (splitOnNl s)).filterMap dispatchOf) := by
  simp [feed, h, hnl]

/-- The channel-buffer invariant of `_handle_write`: whenever the buffer
decodes, the decoded text is newline-free (a buffer in the waiting state
may hold anything). -/
def BufInv (buf : List Nat) : Prop :=
  ∀ v, utf8Decode buf = some v → 10 ∉ v

theorem bufInv_nil : BufInv [] := by
  intro v h
  have h0 : utf8Decode ([] : List Nat) = some [] := rfl
  rw [h0] at h
  simp only [Option.some.injEq] at h
  subst h
  simp

/-- Main codec invariant: after feeding any chunk sequence into a buffer
satisfying `BufInv`, the bytes seen so far factor into newline-terminated
consumed segments (each valid, newline-free, dispatched through
`dispatchOf` in order) followed by the final buffer, which again
satisfies `BufInv`. -/
theorem feedAll_spec :
    ∀ (chunks : List (List Nat)) (buf : List Nat), BufInv buf →
      ∃ segs : List (List Nat),
        buf ++ catChunks chunks =
          nlJoin (segs.map utf8Encode) ++ (feedAll buf chunks).1 ∧
        (feedAll buf chunks).2 = segs.filterMap dispatchOf ∧
        (∀ t ∈ segs, 10 ∉ t ∧ ∀ c ∈ t, ValidCodepoint c) ∧
        BufInv (feedAll buf chunks).1 := by
  intro chunks
  induction chunks with
  | nil =>
    intro buf hinv
    exact ⟨[], by simp [catChunks, feedAll, nlJoin], by simp [feedAll],
      by simp, hinv⟩
  | cons c cs ih =>
    intro buf hinv
    cases hdec : utf8Decode (buf ++ c) with
    | none =>
      have hfeed := feed_eq_none hdec
      have hinv2 : BufInv (buf ++ c) := fun v hv => by rw [hdec] at hv; cases hv
      obtain ⟨segs, h1, h2, h3, h4⟩ := ih (buf ++ c) hinv2
      refine ⟨segs, ?_, ?_, h3, ?_⟩
      · show buf ++ catChunks (c :: cs) = _
        have : buf ++ catChunks (c :: cs) = (buf ++ c) ++ catChunks cs := by
          simp [catChunks, List.append_assoc]
        rw [this]
        rw [show (feedAll buf (c :: cs)).1 = (feedAll (buf ++ c) cs).1 by
          simp [feedAll, hfeed]]
        exact h1
      · rw [show (feedAll buf (c :: cs)).2 = (feedAll (buf ++ c) cs).2 by
          simp [feedAll, hfeed]]
        exact h2
      · rw [show (feedAll buf (c :: cs)).1 = (feedAll (buf ++ c) cs).1 by
          simp [feedAll, hfeed]]
        exact h4
    | some s =>
      obtain ⟨henc, hval⟩ := utf8Decode_sound hdec
      by_cases hnl : 10 ∈ s
      · have hfeed := feed_eq_nl hdec hnl
        set msgs := splitOnNl s with hmsgs
        have hlast10 : 10 ∉ lastSeg msgs :=
          splitOnNl_nlfree _ (lastSeg_mem _ (splitOnNl_ne_nil s))
        have hlastval : ∀ x ∈ lastSeg msgs, ValidCodepoint x := fun x hx =>
          hval x (splitOnNl_subset _ (lastSeg_mem _ (splitOnNl_ne_nil s)) x hx)
        have hinv2 : BufInv (utf8Encode (lastSeg msgs)) := by
          intro v hv
          rw [utf8Decode_encode _ hlastval] at hv
          simp only [Option.some.injEq] at hv
          subst hv
          exact hlast10
        obtain ⟨segs, h1, h2, h3, h4⟩ := ih (utf8Encode (lastSeg msgs)) hinv2
        refine ⟨initSegs msgs ++ segs, ?_, ?_, ?_, ?_⟩
        · show buf ++ catChunks (c :: cs) = _
          have hb : buf ++ catChunks (c :: cs) = (buf ++ c) ++ catChunks cs := by
            simp [catChunks, List.append_assoc]
          have hrec : (buf ++ c : List Nat) =
              nlJoin ((initSegs msgs).map utf8Encode) ++
                utf8Encode (lastSeg msgs) := by
            rw [← henc]
            rw [show nlJoin ((initSegs msgs).map utf8Encode) =
              utf8Encode (nlJoin (initSegs msgs)) from
              (utf8Encode_nlJoin _).symm]
            rw [← utf8Encode_append]
            rw [splitOnNl_reconstruct]
          rw [hb, hrec]
          rw [show (feedAll buf (c :: cs)).1 =
            (feedAll (utf8Encode (lastSeg msgs)) cs).1 by
            simp [feedAll, hfeed]]
          rw [List.map_append, nlJoin_append, List.append_assoc, h1]
          simp [List.append_assoc]
        · rw [show (feedAll buf (c :: cs)).2 =
            (initSegs msgs).filterMap dispatchOf ++
              (feedAll (utf8Encode (lastSeg msgs)) cs).2 by
            simp [feedAll, hfeed]]
          rw [h2, List.filterMap_append]
        · intro t ht
          rcases List.mem_append.mp ht with h5 | h5
          · have hm : t ∈ msgs := initSegs_subset _ t h5
            exact ⟨splitOnNl_nlfree _ hm,
              fun x hx => hval x (splitOnNl_subset _ hm x hx)⟩
          · exact h3 t h5
        · rw [show (feedAll buf (c :: cs)).1 =
            (feedAll (utf8Encode (lastSeg msgs)) cs).1 by
            simp [feedAll, hfeed]]
          exact h4
      · have hfeed := feed_eq_no_nl hdec hnl
        have hinv2 : BufInv (buf ++ c) := by
          intro v hv
          rw [hdec] at hv
          simp only [Option.some.injEq] at hv
          subst hv
          exact hnl
        obtain ⟨segs, h1, h2, h3, h4⟩ := ih (buf ++ c) hinv2
        refine ⟨segs, ?_, ?_, h3, ?_⟩
        · show buf ++ catChunks (c :: cs) = _
          have hb : buf ++ catChunks (c :: cs) = (buf ++ c) ++ catChunks cs := by
            simp [catChunks, List.append_assoc]
          rw [hb]
          rw [show (feedAll buf (c :: cs)).1 = (feedAll (buf ++ c) cs).1 by
            simp [feedAll, hfeed]]
          exact h1
        · rw [show (feedAll buf (c :: cs)).2 = (feedAll (buf ++ c) cs).2 by
            simp [feedAll, hfeed]]
          exact h2
        · rw [show (feedAll buf (c :: cs)).1 = (feedAll (buf ++ c) cs).1 by
            simp [feedAll, hfeed]]
          exact h4

/-- Closed form for the messages produced by feeding any chunk split of a
decodable byte string into a fresh buffer. -/
theorem feedAll_messages (chunks : List (List Nat)) (w : List Nat)
    (hw : utf8Decode (catChunks chunks) = some w) :
    (feedAll [] chunks).2 = (initSegs (splitOnNl w)).filterMap dispatchOf := by
  obtain ⟨segs, h1, h2, h3, h4⟩ := feedAll_spec chunks [] bufInv_nil
  rw [List.nil_append] at h1
  have hsegval : ∀ x ∈ nlJoin segs, ValidCodepoint x := by
    intro x hx
    rcases mem_nlJoin hx with ⟨t, ht, hxt⟩ | rfl
    · exact (h3 t ht).2 x hxt
    · exact ⟨by omega, by omega⟩
  have hjoin : nlJoin (segs.map utf8Encode) = utf8Encode (nlJoin segs) :=
    (utf8Encode_nlJoin _).symm
  rw [hjoin] at h1
  rw [h1] at hw
  rw [utf8Decode_encode_append _ hsegval] at hw
  cases hv : utf8Decode (feedAll [] chunks).1 with
  | none => rw [hv] at hw; cases hw
  | some v =>
    rw [hv] at hw
    simp only [Option.map_some', Option.some.injEq] at hw
    have hv10 : 10 ∉ v := h4 v hv
    have hsegs10 : ∀ t ∈ segs, 10 ∉ t := fun t ht => (h3 t ht).1
    rw [← hw, splitOnNl_nlJoin_append hsegs10, splitOnNl_nlfree_eq hv10,
      initSegs_concat, h2]

theorem chunkBytesLoop_ne_nil (fuel : Nat) (bs : List Nat) :
    chunkBytesLoop fuel bs ≠ [] := by
  cases fuel with
  | zero => simp [chunkBytesLoop]
  | succ f =>
    simp only [chunkBytesLoop]
    split_ifs <;> simp

theorem catChunks_chunkBytesLoop :
    ∀ fuel (bs : List Nat), bs.length ≤ fuel →
      catChunks (chunkBytesLoop fuel bs) = bs ++ [10] := by
  intro fuel
  induction fuel with
  | zero =>
    intro bs h
    have hb : bs = [] := by
      cases bs with
      | nil => rfl
      | cons x xs => simp at h
    subst hb
    simp [chunkBytesLoop, catChunks]
  | succ f ih =>
    intro bs h
    simp only [chunkBytesLoop]
    split_ifs with hle
    · simp [catChunks]
    · show bs.take 100 ++ catChunks (chunkBytesLoop f (bs.drop 100)) = _
      rw [ih (bs.drop 100) (by simp [List.length_drop]; omega)]
      rw [← List.append_assoc, List.take_append_drop]

theorem lastSeg_cons_of_ne_nil {x : List Nat} {l : List (List Nat)}
    (h : l ≠ []) : lastSeg (x :: l) = lastSeg l := by
  cases l with
  | nil => exact absurd rfl h
  | cons y ys => rfl

theorem chunkBytesLoop_last :
    ∀ fuel (bs : List Nat), ∃ t, lastSeg (chunkBytesLoop fuel bs) = t ++ [10] := by
  intro fuel
  induction fuel with
  | zero => intro bs; exact ⟨bs, rfl⟩
  | succ f ih =>
    intro bs
    simp only [chunkBytesLoop]
    split_ifs with hle
    · exact ⟨bs, rfl⟩
    · rw [lastSeg_cons_of_ne_nil (chunkBytesLoop_ne_nil f (bs.drop 100))]
      exact ih (bs.drop 100)

/-! ## JSON values and the persistent store (`data_manager.py`) -/

/-- A JSON value as produced by `json.loads` (floats are not modelled:
no claim involves them). -/
inductive JValue where
  | null : JValue
  | bool (b : Bool) : JValue
  | int (n : Int) : JValue
  | str (s : String) : JValue
  | arr (l : List JValue) : JValue
  | obj (l : List (String × JValue)) : JValue

/-- Python `dict.get(k)` on a JSON object with (unique) string keys. -/
def jget (l : List (String × JValue)) (k : String) : Option JValue :=
  match l with
  | [] => none
  | (k2, v) :: rest => if k2 = k then some v else jget rest k

/-- Python `k in dict`. -/
def hasKey (l : List (String × JValue)) (k : String) : Bool :=
  match l with
  | [] => false
  | (k2, _) :: rest => k2 = k || hasKey rest k

/-- Python `dict[k] = v`: replace in place, or append a new key. -/
def setKey (l : List (String × JValue)) (k : String) (v : JValue) :
    List (String × JValue) :=
  match l with
  | [] => [(k, v)]
  | (k2, v2) :: rest =>
    if k2 = k then (k2, v) :: rest else (k2, v2) :: setKey rest k v

/-- Python `del dict[k]` (keys are unique, so removing the first
occurrence is exact). -/
def delKey (l : List (String × JValue)) (k : String) :
    List (String × JValue) :=
  match l with
  | [] => []
  | (k2, v2) :: rest => if k2 = k then rest else (k2, v2) :: delKey rest k

/-- Python `dict.get(k, d)`. -/
def dictGetD (l : List (String × JValue)) (k : String) (d : JValue) : JValue :=
  match jget l k with
  | some v => v
  | none => d

/-- Python truthiness of a JSON value. -/
def pyTruthy : JValue → Bool
  | .null => false
  | .bool b => b
  | .int n => n != 0
  | .str s => !(s == "")
  | .arr l => !l.isEmpty
  | .obj l => !l.isEmpty

/-- `DataManager._validate_student_data`: a dict with `roll` and `name`
keys, `roll` an `int` (a Python `bool` is a subclass of `int`, so a
boolean roll also passes `isinstance(..., int)`) and `name` a `str`. -/
def validate_student_data (v : JValue) : Bool :=
  match v with
  | .obj l =>
    hasKey l "roll" && hasKey l "name" &&
    (match jget l "roll" with
     | some (.int _) => true
     | some (.bool _) => true
     | _ => false) &&
    (match jget l "name" with
     | some (.str _) => true
     | _ => false)
  | _ => false

/-- `DataManager._validate_class_data`: a dict with `id`, `name` and
`students` keys whose `students` is a list of well-formed students. -/
def validate_class_data (v : JValue) : Bool :=
  match v with
  | .obj l =>
    hasKey l "id" && hasKey l "name" && hasKey l "students" &&
    (match jget l "students" with
     | some (.arr students) => students.all validate_student_data
     | _ => false)
  | _ => false

/-- `DataManager._validate_attendance_record`: a dict with `roll`, `name`
and `present` keys of types int (or bool), str and bool. -/
def validate_attendance_record (v : JValue) : Bool :=
  match v with
  | .obj l =>
    hasKey l "roll" && hasKey l "name" && hasKey l "present" &&
    (match jget l "roll" with
     | some (.int _) => true
     | some (.bool _) => true
     | _ => false) &&
    (match jget l "name" with
     | some (.str _) => true
     | _ => false) &&
    (match jget l "present" with
     | some (.bool _) => true
     | _ => false)
  | _ => false

/-- The `DataManager` state: the in-memory roster and attendance table,
and the parsed contents of the two persisted JSON files (`none` means
the file does not exist). Attendance keys are the class ids, which are
strings (spec section 3). -/
structure DMState where
  classes_data : List JValue
  attendance_data : List (String × JValue)
  classes_file : Option (List JValue)
  attendance_file : Option (List (String × JValue))

/-- `DataManager.save_classes`: validate that the payload is a list whose
classes are all well-formed; only then overwrite the file and the
in-memory copy. (The `except` path for file I/O errors is not modelled:
the claims about this function concern validation failures.) -/
def save_classes (st : DMState) (classes_data : JValue) : DMState × Bool :=
  match classes_data with
  | .arr l =>
    if l.all validate_class_data then
      ({ st with classes_file := some l, classes_data := l }, true)
    else (st, false)
  | _ => (st, false)

/-- `DataManager.load_attendance`: reload the in-memory table from the
file, empty when the file does not exist. -/
def load_attendance (st : DMState) : DMState :=
  match st.attendance_file with
  | some t => { st with attendance_data := t }
  | none => { st with attendance_data := [] }

/-- `sum(1 for r in records if r.get('present', False))` — the records
are all validated dicts when this is evaluated, so the non-dict arm is
unreachable. -/
def countPresent (records : List JValue) : Nat :=
  records.countP fun r =>
    match r with
    | .obj l => pyTruthy (dictGetD l "present" (.bool false))
    | _ => false

/-- `sum(1 for r in records if not r.get('present', False))`. -/
def countAbsent (records : List JValue) : Nat :=
  records.countP fun r =>
    match r with
    | .obj l => !pyTruthy (dictGetD l "present" (.bool false))
    | _ => true

/-- The entry stored by `save_attendance`: all three counts are
recomputed from the records (`len(...)` and the two generator sums), and
none is read from the input. -/
def saveEntry (class_id : String) (records : List JValue) (ts : Int) :
    JValue :=
  .obj
    [("class_id", .str class_id),
     ("records", .arr records),
     ("timestamp", .int ts),
     ("total_students", .int records.length),
     ("present_count", .int (countPresent records)),
     ("absent_count", .int (countAbsent records))]

/-- `DataManager.save_attendance`: validate every record, reload the
table from the file, store the entry with recomputed counts under
`class_id` and persist the whole table. `ts` models `time.ticks_ms()`. -/
def save_attendance (st : DMState) (class_id : String)
    (attendance_records : JValue) (ts : Int) : DMState × Bool :=
  match attendance_records with
  | .arr records =>
    if records.all validate_attendance_record then
      let st1 := load_attendance st
      let newTable := setKey st1.attendance_data class_id
        (saveEntry class_id records ts)
      ({ st1 with
          attendance_data := newTable
          attendance_file := some newTable }, true)
    else (st, false)
  | _ => (st, false)

/-- `DataManager.clear_attendance`: remove and persist only when the key
is present; `none` models a `class_id` of Python `None` (the dispatcher
passes `command_data.get('class_id')`), which is never a key of the
string-keyed table. -/
def clear_attendance (st : DMState) (class_id : Option String) :
    DMState × Bool :=
  match class_id with
  | some cid =>
    if hasKey st.attendance_data cid then
      let newTable := delKey st.attendance_data cid
      ({ st with
          attendance_data := newTable
          attendance_file := some newTable }, true)
    else (st, false)
  | none => (st, false)

/-- `DataManager.clear_all_attendance`. -/
def clear_all_attendance (st : DMState) : DMState × Bool :=
  ({ st with attendance_data := [], attendance_file := some [] }, true)

/-- `DataManager.is_attendance_taken`: `class_id in self.attendance_data`.
A non-string JSON value is never equal to a string key. -/
def is_attendance_taken (st : DMState) (k : JValue) : Bool :=
  match k with
  | .str s => hasKey st.attendance_data s
  | _ => false

/-! ## Command dispatcher (`ble_server.py`) -/

/-- The two write characteristics routed by `_process_complete_message`
(`class_data` carries roster sync, `command` carries the command
protocol). -/
inductive Channel where
  | class_data : Channel
  | command : Channel

/-- `{"status": "error", "message": msg}`. -/
def jsonError (msg : String) : JValue :=
  .obj [("status", .str "error"), ("message", .str msg)]

/-- `_handle_class_data_write`: parse result already in hand, call
`save_classes`, notify a success or failure response. The returned list
holds the JSON responses notified to the peer. -/
def handle_class_data_write (st : DMState) (v : JValue) :
    DMState × List JValue :=
  let r := save_classes st v
  if r.2 then
    (r.1, [.obj [("status", .str "success"),
      ("message", .str "Data synced successfully")]])
  else
    (r.1, [jsonError "Failed to save data"])

/-- `len()` of the `students` value in `get_status`
(`len(c.get('students', []))`): works on a list, string or dict, raises
`TypeError` otherwise (`none`). -/
def studentsLen (c : JValue) : Option Nat :=
  match c with
  | .obj l =>
    match dictGetD l "students" (.arr []) with
    | .arr s => some s.length
    | .str s => some s.length
    | .obj o => some o.length
    | _ => none
  | _ => none

/-- `sum(len(c.get('students', [])) for c in classes)`, `none` when any
class raises. -/
def totalStudents : List JValue → Option Nat
  | [] => some 0
  | c :: rest =>
    match studentsLen c, totalStudents rest with
    | some n, some m => some (n + m)
    | _, _ => none

/-- `_handle_command_write`: dispatch one parsed command object.
`storageInfo` and `memInfo` model `Config.get_storage_info()` and
`_get_memory_info()`. On a non-object the `command_data.get` call raises
`AttributeError`, which the handler's `except` converts into an error
response (its `message` is the exception text, modelled by the
exception's name). -/
def handle_command_write (storageInfo memInfo : JValue) (st : DMState)
    (v : JValue) : DMState × List JValue :=
  match v with
  | .obj l =>
    match jget l "command" with
    | some (.str c) =>
      if c = "clear_attendance" then
        let cid : Option String :=
          match jget l "class_id" with
          | some (.str s) => some s
          | _ => none
        let respCid : JValue :=
          match jget l "class_id" with
          | some jv => jv
          | none => .null
        let r := clear_attendance st cid
        (r.1, [.obj [("status", .str (if r.2 then "success" else "error")),
          ("command", .str c), ("class_id", respCid)]])
      else if c = "clear_all_attendance" then
        let r := clear_all_attendance st
        (r.1, [.obj [("status", .str (if r.2 then "success" else "error")),
          ("command", .str c)]])
      else if c = "get_status" then
        match totalStudents st.classes_data with
        | some total =>
          (st, [.obj [("device_name", .str "ESP32-Attendance"),
            ("classes_count", .int st.classes_data.length),
            ("total_students", .int total),
            ("storage", storageInfo),
            ("memory_free", memInfo)]])
        | none => (st, [jsonError "TypeError"])
      else
        (st, [jsonError "Unknown command"])
    | _ => (st, [jsonError "Unknown command"])
  | _ => (st, [jsonError "AttributeError"])

/-- `_process_complete_message`: `parsed` is the outcome of
`json.loads(message)` — `none` models a `ValueError` raised on malformed
JSON, in which case the handler only logs and returns, notifying
nothing. On success the message is routed by characteristic handle. -/
def process_complete_message (storageInfo memInfo : JValue) (st : DMState)
    (ch : Channel) (parsed : Option JValue) : DMState × List JValue :=
  match parsed with
  | none => (st, [])
  | some v =>
    match ch with
    | .class_data => handle_class_data_write st v
    | .command => handle_command_write storageInfo memInfo st v

/-! ## Session state machine (`main.py`) -/

/-- The strings stored in `self.current_state`. -/
inductive UIState where
  | MAIN_MENU : UIState
  | CLASS_SELECTION : UIState
  | ATTENDANCE_TAKING : UIState
deriving DecidableEq

/-- The strings returned by `ButtonHandler.get_event()`. -/
inductive BtnEvent where
  | UP : BtnEvent
  | DOWN : BtnEvent
  | SELECT : BtnEvent
  | BACK : BtnEvent
  | PRESENT : BtnEvent
  | ABSENT : BtnEvent
deriving DecidableEq

/-- Python runtime errors that the handlers can raise; any of them
escapes `handle_button_event` into the top-level handler of
`AttendanceSystem.run`, which shows the error and resets the device. -/
inductive PyError where
  | zeroDivisionError : PyError
  | indexError : PyError
  | keyError : PyError
  | typeError : PyError
deriving DecidableEq

/-- Python `a % n` on ints: raises `ZeroDivisionError` when `n = 0`;
for `n > 0` the result is the nonnegative representative (`Int.emod`). -/
def pymod (a : Int) (n : Nat) : Except PyError Int :=
  if n = 0 then .error .zeroDivisionError else .ok (a % (n : Int))

/-- Python `l[i]` on a list: negative indices count from the end; out of
range raises `IndexError`. -/
def pyIndex (l : List JValue) (i : Int) : Except PyError JValue :=
  let j := if i < 0 then i + l.length else i
  if h : 0 ≤ j ∧ j < l.length then
    .ok (l.get ⟨j.toNat, by omega⟩)
  else .error .indexError

/-- Python `d[k]` on a JSON value: `KeyError` on a missing key,
`TypeError` when the value is not a dict. -/
def pySubscriptObj (d : JValue) (k : String) : Except PyError JValue :=
  match d with
  | .obj l =>
    match jget l k with
    | some v => .ok v
    | none => .error .keyError
  | _ => .error .typeError

/-- `self.attendance_session` (a transient dict in the source). -/
structure Session where
  class_id : JValue
  class_name : JValue
  students : JValue
  records : List JValue
  current_index : Nat

/-- The `AttendanceSystem` state: store plus UI fields. -/
structure SysState where
  dm : DMState
  current_state : UIState
  selected_class_index : Int
  current_student_index : Int
  attendance_session : Option Session

/-- `handle_main_menu_buttons`: `SELECT` enters class selection only when
the roster is non-empty (`if classes:`); everything else is a no-op. -/
def handle_main_menu_buttons (st : SysState) (event : BtnEvent) : SysState :=
  match event with
  | .SELECT =>
    if st.dm.classes_data.isEmpty then st
    else { st with
        current_state := .CLASS_SELECTION
        selected_class_index := 0 }
  | _ => st

/-- `start_attendance_session`: snapshot the class's fields into a new
session and enter `ATTENDANCE_TAKING` (each subscript can raise). -/
def start_attendance_session (st : SysState) (class_data : JValue) :
    Except PyError SysState :=
  do
    let cid ← pySubscriptObj class_data "id"
    let cname ← pySubscriptObj class_data "name"
    let students ← pySubscriptObj class_data "students"
    .ok { st with
        attendance_session := some ⟨cid, cname, students, [], 0⟩
        current_student_index := 0
        current_state := .ATTENDANCE_TAKING }

/-- `handle_class_selection_buttons`: wrap the selection with Python `%`
(which raises `ZeroDivisionError` on an empty roster), select the class
(indexing can raise `IndexError`), block reselection of an already-taken
class; `BACK` returns to the menu; other events are no-ops. -/
def handle_class_selection_buttons (st : SysState) (event : BtnEvent) :
    Except PyError SysState :=
  let classes := st.dm.classes_data
  match event with
  | .UP => do
    let i ← pymod (st.selected_class_index - 1) classes.length
    .ok { st with selected_class_index := i }
  | .DOWN => do
    let i ← pymod (st.selected_class_index + 1) classes.length
    .ok { st with selected_class_index := i }
  | .SELECT => do
    let selected ← pyIndex classes st.selected_class_index
    let cid ← pySubscriptObj selected "id"
    if is_attendance_taken st.dm cid then .ok st
    else start_attendance_session st selected
  | .BACK => .ok { st with current_state := .MAIN_MENU }
  | _ => .ok st

/-- `complete_attendance_session`: persist the session's records under
its class id and fall back to class selection. (A roster id that is not
a JSON string would be stored under a non-string key in Python; the
claims only involve string ids — spec section 3 — so that path returns
failure here.) -/
def complete_attendance_session (st : SysState) (ts : Int) : SysState :=
  match st.attendance_session with
  | none => st
  | some session =>
    let r :=
      match session.class_id with
      | .str cid => save_attendance st.dm cid (.arr session.records) ts
      | _ => (st.dm, false)
    { st with
        dm := r.1
        attendance_session := none
        current_state := .CLASS_SELECTION }

/-- `mark_student`: append a record for the student at
`current_student_index`, advance, and finalize the session once every
student is marked. Subscripts on a malformed snapshot raise. -/
def mark_student (st : SysState) (is_present : Bool) (ts : Int) :
    Except PyError SysState :=
  match st.attendance_session with
  | none => .ok st
  | some session =>
    match session.students with
    | .arr students => do
      let current_student ← pyIndex students st.current_student_index
      let roll ← pySubscriptObj current_student "roll"
      let name ← pySubscriptObj current_student "name"
      let record : JValue :=
        .obj [("roll", roll), ("name", name), ("present", .bool is_present)]
      let session2 := { session with records := session.records ++ [record] }
      let st2 := { st with
          attendance_session := some session2
          current_student_index := st.current_student_index + 1 }
      if st2.current_student_index ≥ (students.length : Int) then
        .ok (complete_attendance_session st2 ts)
      else
        .ok st2
    | _ => .error .typeError

/-- `cancel_attendance_session`: discard without saving. -/
def cancel_attendance_session (st : SysState) : SysState :=
  match st.attendance_session with
  | none => st
  | some _ =>
    { st with
        attendance_session := none
        current_state := .CLASS_SELECTION }

/-- `handle_attendance_buttons`. -/
def handle_attendance_buttons (st : SysState) (event : BtnEvent) (ts : Int) :
    Except PyError SysState :=
  match event with
  | .PRESENT => mark_student st true ts
  | .ABSENT => mark_student st false ts
  | .BACK => .ok (cancel_attendance_session st)
  | _ => .ok st

/-- `handle_button_event`: route by the current UI state. -/
def handle_button_event (st : SysState) (event : BtnEvent) (ts : Int) :
    Except PyError SysState :=
  match st.current_state with
  | .MAIN_MENU => .ok (handle_main_menu_buttons st event)
  | .CLASS_SELECTION => handle_class_selection_buttons st event
  | .ATTENDANCE_TAKING => handle_attendance_buttons st event ts

/-- An externally triggered step: a button event in the main loop, or a
roster-sync message arriving in the BLE interrupt context
(`_handle_class_data_write`), which mutates the shared `DataManager`. -/
inductive SysAction where
  | btn (e : BtnEvent) : SysAction
  | sync (payload : JValue) : SysAction

def stepAction (st : SysState) (a : SysAction) : Except PyError SysState :=
  match a with
  | .btn e => handle_button_event st e 0
  | .sync v => .ok { st with dm := (handle_class_data_write st.dm v).1 }

def runSteps (st : SysState) : List SysAction → Except PyError SysState
  | [] => .ok st
  | a :: rest => do
    let st2 ← stepAction st a
    runSteps st2 rest

/-- `DataManager.__init__`: load both documents from their files. -/
def initDM (classes_file : Option (List JValue))
    (attendance_file : Option (List (String × JValue))) : DMState :=
  { classes_data := classes_file.getD []
    attendance_data := attendance_file.getD []
    classes_file := classes_file
    attendance_file := attendance_file }

/-- `AttendanceSystem.__init__`. -/
def initSys (dm : DMState) : SysState :=
  { dm := dm
    current_state := .MAIN_MENU
    selected_class_index := 0
    current_student_index := 0
    attendance_session := none }

/-! ## Helper lemmas for the claim theorems -/

/-- Python `chr(10).join(segs)`-style intercalation: the unique way to
write a string as newline-separated segments. -/
def nlIntercalate : List (List Nat) → List Nat
  | [] => []
  | [t] => t
  | t :: ts => t ++ 10 :: nlIntercalate ts

theorem splitOnNl_nlIntercalate :
    ∀ {segs : List (List Nat)}, segs ≠ [] → (∀ t ∈ segs, 10 ∉ t) →
      splitOnNl (nlIntercalate segs) = segs := by
  intro segs
  induction segs with
  | nil => intro h; exact absurd rfl h
  | cons t ts ih =>
    intro _ hfree
    cases ts with
    | nil =>
      show splitOnNl t = [t]
      exact splitOnNl_nlfree_eq (hfree t (by simp))
    | cons u us =>
      show splitOnNl (t ++ 10 :: nlIntercalate (u :: us)) = t :: u :: us
      rw [splitOnNl_seg_append (hfree t (by simp))]
      rw [ih (by simp) (fun x hx => hfree x (List.mem_cons_of_mem _ hx))]

theorem jget_setKey (l : List (String × JValue)) (k : String) (v : JValue) :
    jget (setKey l k v) k = some v := by
  induction l with
  | nil => simp [setKey, jget]
  | cons p rest ih =>
    obtain ⟨k2, v2⟩ := p
    by_cases hk : k2 = k
    · simp [setKey, jget, hk]
    · simp only [setKey, if_neg hk, jget, ih]

theorem countP_add_countP_not {α : Type} (p : α → Bool) (l : List α) :
    l.countP p + l.countP (fun a => !(p a)) = l.length := by
  induction l with
  | nil => simp
  | cons x xs ih =>
    by_cases h : p x = true <;>
      simp [List.countP_cons, h] <;> omega

theorem countAbsent_eq (records : List JValue) :
    countAbsent records = records.countP fun r => !(match r with
      | .obj l => pyTruthy (dictGetD l "present" (.bool false))
      | _ => false) := by
  unfold countAbsent
  congr 1
  funext r
  cases r <;> rfl

/-- The counts stored by `save_attendance` always sum to the record
count. -/
theorem countPresent_add_countAbsent (records : List JValue) :
    countPresent records + countAbsent records = records.length := by
  rw [countAbsent_eq]
  exact countP_add_countP_not _ records

/-- Field access on a JSON object value. -/
def jfield (v : JValue) (k : String) : Option JValue :=
  match v with
  | .obj l => jget l k
  | _ => none

/-! ## Claim theorems -/

/-- C7: if, after appending the fed chunk, the buffer fails to decode as
UTF-8 (a chunk boundary split a multi-byte codepoint), `feed` returns no
messages and leaves the buffer exactly as it was after the append — no
bytes are discarded — so the decode is retried when the next chunk
arrives. -/
theorem c7_decode_failure_keeps_buffer {buf chunk : List Nat}
    (h : utf8Decode (buf ++ chunk) = none) :
    feed buf chunk = (buf ++ chunk, []) := by
  simp [feed, h]

theorem c7_decode_failure_keeps_buffer_witness :
    utf8Decode ([169, 10] ++ [195]) = none ∧
    feed [169, 10] [195] = ([169, 10] ++ [195], []) :=
  ⟨by decide, c7_decode_failure_keeps_buffer (by decide)⟩

/-- C8 counterexample: the buffer `"a \nb"` has `"a "` as its only
complete newline-separated segment, but the dispatched message is the
STRIPPED `"a"`, not the unmodified segment — refuting "dispatched
unmodified" (whitespace-only segments are even dropped entirely). -/
theorem c8_counterexample :
    utf8Decode ([] ++ [97, 32, 10, 98]) = some [97, 32, 10, 98] ∧
    initSegs (splitOnNl [97, 32, 10, 98]) = [[97, 32]] ∧
    (feed [] [97, 32, 10, 98]).2 = [[97]] ∧
    [[97]] ≠ [[97, 32]] := by decide

/-- C8 amended: when the decoded buffer contains a newline then, writing
the decoded text uniquely as newline-separated segments (`segs`), every
segment except the last is stripped of surrounding whitespace and, when
non-empty, dispatched in arrival order; the last (possibly empty)
segment, re-encoded, becomes the new buffer content. -/
theorem c8_split_dispatch {buf chunk s : List Nat}
    {segs : List (List Nat)}
    (hdec : utf8Decode (buf ++ chunk) = some s) (hnl : 10 ∈ s)
    (hne : segs ≠ []) (hfree : ∀ t ∈ segs, 10 ∉ t)
    (hjoin : nlIntercalate segs = s) :
    (feed buf chunk).2 = (initSegs segs).filterMap dispatchOf ∧
    (feed buf chunk).1 = utf8Encode (lastSeg segs) := by
  have hsp : splitOnNl s = segs := by
    rw [← hjoin]
    exact splitOnNl_nlIntercalate hne hfree
  rw [feed_eq_nl hdec hnl, hsp]
  exact ⟨rfl, rfl⟩

theorem c8_split_dispatch_witness :
    utf8Decode ([] ++ [97, 32, 10, 98, 10, 99]) =
      some [97, 32, 10, 98, 10, 99] ∧
    (feed [] [97, 32, 10, 98, 10, 99]).2 =
      (initSegs [[97, 32], [98], [99]]).filterMap dispatchOf ∧
    (feed [] [97, 32, 10, 98, 10, 99]).1 = utf8Encode (lastSeg [[97, 32], [98], [99]]) :=
  ⟨by decide,
    (@c8_split_dispatch [] [97, 32, 10, 98, 10, 99] [97, 32, 10, 98, 10, 99]
      [[97, 32], [98], [99]] (by decide) (by decide) (by decide) (by decide)
      (by decide)).1,
    (@c8_split_dispatch [] [97, 32, 10, 98, 10, 99] [97, 32, 10, 98, 10, 99]
      [[97, 32], [98], [99]] (by decide) (by decide) (by decide) (by decide)
      (by decide)).2⟩

/-- C6: chunk-split invariance — feeding any byte-chunk split of a
decodable message into a fresh channel buffer yields exactly the same
sequence of dispatched messages as feeding the whole byte string at
once. -/
theorem c6_chunk_split_invariance (chunks : List (List Nat)) (w : List Nat)
    (hw : utf8Decode (catChunks chunks) = some w) :
    (feedAll [] chunks).2 = (feedAll [] [catChunks chunks]).2 := by
  rw [feedAll_messages chunks w hw]
  rw [feedAll_messages [catChunks chunks] w
    (by simpa [catChunks] using hw)]

theorem c6_chunk_split_invariance_witness :
    utf8Decode (catChunks [[195], [169, 10, 97]]) = some [233, 10, 97] ∧
    (feedAll [] [[195], [169, 10, 97]]).2 =
      (feedAll [] [catChunks [[195], [169, 10, 97]]]).2 :=
  ⟨by decide, c6_chunk_split_invariance _ [233, 10, 97] (by decide)⟩

/-- C1 counterexample: the two-byte payload `"{}"` fits in a single
chunk; `_send_chunked_response` sends it whole but WITHOUT the newline
delimiter, so feeding the produced chunks back into the inbound codec
reconstructs nothing at all (not the message `"{}"`), refuting both the
"still newline-terminated" part and the round-trip law for payloads that
fit in one chunk. -/
theorem c1_single_chunk_counterexample :
    sendChunkedResponse [123, 125] = [[123, 125]] ∧
    10 ∉ lastSeg (sendChunkedResponse [123, 125]) ∧
    (feedAll [] (sendChunkedResponse [123, 125])).2 = [] ∧
    ([] : List (List Nat)) ≠ [[123, 125]] := by decide

/-- C1 amended: for a newline-free payload that equals its own strip and
whose UTF-8 encoding is larger than the 100-byte chunk size (every JSON
response over one chunk is of this form), fragmenting with
`_send_chunked_response` and feeding each produced chunk in order into a
fresh channel buffer reconstructs exactly the payload, and the final
chunk carries the newline delimiter. A payload that fits in a single
chunk is sent whole but without the newline terminator, so it is not
reconstructed by `feed` alone (see the counterexample). -/
theorem c1_roundtrip_over_chunk_size {x : List Nat}
    (hval : ∀ c ∈ x, ValidCodepoint c)
    (hnl : 10 ∉ x) (hstrip : pyStrip x = x)
    (hlen : 100 < (utf8Encode x).length) :
    (feedAll [] (sendChunkedResponse x)).2 = [x] ∧
    ∃ t, lastSeg (sendChunkedResponse x) = t ++ [10] := by
  have hfrag : sendChunkedResponse x =
      chunkBytesLoop (utf8Encode x).length (utf8Encode x) := by
    unfold sendChunkedResponse
    rw [if_neg (by omega)]
  have hcat : catChunks (sendChunkedResponse x) = utf8Encode x ++ [10] := by
    rw [hfrag]
    exact catChunks_chunkBytesLoop _ _ (le_refl _)
  have hx10 : ∀ c ∈ x ++ [10], ValidCodepoint c := by
    intro c hc
    rcases List.mem_append.mp hc with h | h
    · exact hval c h
    · simp only [List.mem_singleton] at h
      subst h
      exact ⟨by omega, by omega⟩
  have hdec : utf8Decode (catChunks (sendChunkedResponse x)) =
      some (x ++ [10]) := by
    rw [hcat]
    have henc : utf8Encode x ++ [10] = utf8Encode (x ++ [10]) := by
      rw [utf8Encode_append]
      rfl
    rw [henc]
    exact utf8Decode_encode _ hx10
  have hmsgs := feedAll_messages _ _ hdec
  have hsplit : splitOnNl (x ++ [10]) = [x, []] := by
    have h1 : x ++ [10] = x ++ 10 :: [] := rfl
    rw [h1, splitOnNl_seg_append hnl]
    rfl
  have hxne : x ≠ [] := by
    intro hx
    subst hx
    simp [utf8Encode] at hlen
  constructor
  · rw [hmsgs, hsplit]
    show [x].filterMap dispatchOf = [x]
    simp [List.filterMap, dispatchOf, hstrip, hxne]
  · rw [hfrag]
    exact chunkBytesLoop_last _ _

theorem c1_roundtrip_over_chunk_size_witness :
    (∀ c ∈ List.replicate 101 97, ValidCodepoint c) ∧
    10 ∉ List.replicate 101 97 ∧
    pyStrip (List.replicate 101 97) = List.replicate 101 97 ∧
    100 < (utf8Encode (List.replicate 101 97)).length ∧
    ((feedAll [] (sendChunkedResponse (List.replicate 101 97))).2 =
        [List.replicate 101 97] ∧
      ∃ t, lastSeg (sendChunkedResponse (List.replicate 101 97)) = t ++ [10]) :=
  ⟨by decide, by decide, by decide, by decide,
    c1_roundtrip_over_chunk_size (by decide) (by decide) (by decide)
      (by decide)⟩

/-- C2: `save_classes` (the spec's `replace_roster`) is atomic: if any
class in the candidate list fails validation, the returned state is
unchanged (both the persisted file and the in-memory roster), and on
success both are overwritten with the candidate. -/
theorem c2_save_classes_atomic (st : DMState) (l : List JValue) :
    ((∃ c ∈ l, validate_class_data c = false) →
      save_classes st (.arr l) = (st, false)) ∧
    ((∀ c ∈ l, validate_class_data c = true) →
      save_classes st (.arr l) =
        ({ st with
            classes_file := some l
            classes_data := l }, true)) := by
  constructor
  · rintro ⟨c, hc, hv⟩
    have hfalse : l.all validate_class_data = false := by
      cases h : l.all validate_class_data
      · rfl
      · have := List.all_eq_true.mp h c hc
        rw [hv] at this
        cases this
    simp [save_classes, hfalse]
  · intro hall
    simp [save_classes, List.all_eq_true.mpr hall]

theorem c2_save_classes_atomic_witness :
    (∃ c ∈ [JValue.obj [("id", JValue.str "c1"), ("name", JValue.str "Math"),
        ("students", JValue.arr [])], JValue.int 5],
      validate_class_data c = false) ∧
    save_classes (initDM none none)
      (.arr [JValue.obj [("id", JValue.str "c1"), ("name", JValue.str "Math"),
        ("students", JValue.arr [])], JValue.int 5]) =
      (initDM none none, false) :=
  ⟨⟨.int 5, List.mem_cons_of_mem _ (List.mem_cons_self _ _), rfl⟩,
    (c2_save_classes_atomic _ _).1
      ⟨.int 5, List.mem_cons_of_mem _ (List.mem_cons_self _ _), rfl⟩⟩

theorem save_attendance_eq (st : DMState) (class_id : String)
    (records : List JValue) (ts : Int)
    (hall : records.all validate_attendance_record = true) :
    save_attendance st class_id (.arr records) ts =
      ({ load_attendance st with
          attendance_data := setKey (load_attendance st).attendance_data
            class_id (saveEntry class_id records ts)
          attendance_file := some (setKey
            (load_attendance st).attendance_data class_id
            (saveEntry class_id records ts)) }, true) := by
  simp [save_attendance, hall]

/-- C5: for every class id and list of valid attendance records,
`save_attendance` succeeds and the stored entry (both in memory and in
the persisted table, which coincide) satisfies
`present_count + absent_count = total_students = len(records)`, all
three recomputed from the records themselves. -/
theorem c5_save_attendance_counts (st : DMState) (class_id : String)
    (records : List JValue) (ts : Int)
    (hv : ∀ r ∈ records, validate_attendance_record r = true) :
    (save_attendance st class_id (.arr records) ts).2 = true ∧
    (save_attendance st class_id (.arr records) ts).1.attendance_file =
      some (save_attendance st class_id (.arr records) ts).1.attendance_data ∧
    ∃ e, jget (save_attendance st class_id
        (.arr records) ts).1.attendance_data class_id = some e ∧
      jfield e "total_students" = some (.int records.length) ∧
      jfield e "present_count" = some (.int (countPresent records)) ∧
      jfield e "absent_count" = some (.int (countAbsent records)) ∧
      (countPresent records : Int) + (countAbsent records : Int) =
        (records.length : Int) := by
  have hall : records.all validate_attendance_record = true :=
    List.all_eq_true.mpr hv
  rw [save_attendance_eq st class_id records ts hall]
  refine ⟨rfl, rfl, saveEntry class_id records ts, jget_setKey _ _ _,
    ?_, ?_, ?_, ?_⟩
  · simp [saveEntry, jfield, jget]
  · simp [saveEntry, jfield, jget]
  · simp [saveEntry, jfield, jget]
  · exact_mod_cast countPresent_add_countAbsent records

theorem c5_save_attendance_counts_witness :
    (∀ r ∈ [JValue.obj [("roll", JValue.int 1), ("name", JValue.str "A"),
        ("present", JValue.bool true)],
      JValue.obj [("roll", JValue.int 2), ("name", JValue.str "B"),
        ("present", JValue.bool false)]],
      validate_attendance_record r = true) ∧
    ((save_attendance (initDM none none) "c1"
        (.arr [JValue.obj [("roll", JValue.int 1), ("name", JValue.str "A"),
          ("present", JValue.bool true)],
        JValue.obj [("roll", JValue.int 2), ("name", JValue.str "B"),
          ("present", JValue.bool false)]]) 0).2 = true ∧
      (save_attendance (initDM none none) "c1"
        (.arr [JValue.obj [("roll", JValue.int 1), ("name", JValue.str "A"),
          ("present", JValue.bool true)],
        JValue.obj [("roll", JValue.int 2), ("name", JValue.str "B"),
          ("present", JValue.bool false)]]) 0).1.attendance_file =
        some (save_attendance (initDM none none) "c1"
          (.arr [JValue.obj [("roll", JValue.int 1), ("name", JValue.str "A"),
            ("present", JValue.bool true)],
          JValue.obj [("roll", JValue.int 2), ("name", JValue.str "B"),
            ("present", JValue.bool false)]]) 0).1.attendance_data ∧
      ∃ e, jget (save_attendance (initDM none none) "c1"
          (.arr [JValue.obj [("roll", JValue.int 1), ("name", JValue.str "A"),
            ("present", JValue.bool true)],
          JValue.obj [("roll", JValue.int 2), ("name", JValue.str "B"),
            ("present", JValue.bool false)]]) 0).1.attendance_data "c1" =
          some e ∧
        jfield e "total_students" = some (.int 2) ∧
        jfield e "present_count" = some (.int (countPresent
          [JValue.obj [("roll", JValue.int 1), ("name", JValue.str "A"),
            ("present", JValue.bool true)],
          JValue.obj [("roll", JValue.int 2), ("name", JValue.str "B"),
            ("present", JValue.bool false)]])) ∧
        jfield e "absent_count" = some (.int (countAbsent
          [JValue.obj [("roll", JValue.int 1), ("name", JValue.str "A"),
            ("present", JValue.bool true)],
          JValue.obj [("roll", JValue.int 2), ("name", JValue.str "B"),
            ("present", JValue.bool false)]])) ∧
        (countPresent [JValue.obj [("roll", JValue.int 1),
            ("name", JValue.str "A"), ("present", JValue.bool true)],
          JValue.obj [("roll", JValue.int 2), ("name", JValue.str "B"),
            ("present", JValue.bool false)]] : Int) +
          (countAbsent [JValue.obj [("roll", JValue.int 1),
            ("name", JValue.str "A"), ("present", JValue.bool true)],
          JValue.obj [("roll", JValue.int 2), ("name", JValue.str "B"),
            ("present", JValue.bool false)]] : Int) = (2 : Int)) :=
  ⟨by decide,
    c5_save_attendance_counts (initDM none none) "c1" _ 0 (by decide)⟩

/-- C10: `clear_attendance` on a class id with no entry in the table
returns failure, leaving both the in-memory table and the persisted file
untouched, and the command response carries status `"error"`; when the
entry exists it is removed and the table is persisted. -/
theorem c10_clear_attendance_spec (storageInfo memInfo : JValue)
    (st : DMState) (cid : String) :
    (hasKey st.attendance_data cid = false →
      clear_attendance st (some cid) = (st, false) ∧
      handle_command_write storageInfo memInfo st
        (.obj [("command", .str "clear_attendance"),
          ("class_id", .str cid)]) =
        (st, [.obj [("status", .str "error"),
          ("command", .str "clear_attendance"),
          ("class_id", .str cid)]])) ∧
    (hasKey st.attendance_data cid = true →
      clear_attendance st (some cid) =
        ({ st with
            attendance_data := delKey st.attendance_data cid
            attendance_file := some (delKey st.attendance_data cid) },
          true)) := by
  constructor
  · intro hmiss
    constructor
    · simp [clear_attendance, hmiss]
    · simp [handle_command_write, jget, clear_attendance, hmiss]
  · intro hhit
    simp [clear_attendance, hhit]

theorem c10_clear_attendance_spec_witness :
    (hasKey (initDM none none).attendance_data "c1" = false ∧
      (clear_attendance (initDM none none) (some "c1") =
        (initDM none none, false) ∧
      handle_command_write .null .null (initDM none none)
        (.obj [("command", .str "clear_attendance"),
          ("class_id", .str "c1")]) =
        (initDM none none, [.obj [("status", .str "error"),
          ("command", .str "clear_attendance"),
          ("class_id", .str "c1")]]))) ∧
    (hasKey (initDM none (some [("c1", .null)])).attendance_data "c1" =
        true ∧
      clear_attendance (initDM none (some [("c1", .null)])) (some "c1") =
        ({ initDM none (some [("c1", .null)]) with
            attendance_data := delKey
              (initDM none (some [("c1", .null)])).attendance_data "c1"
            attendance_file := some (delKey
              (initDM none (some [("c1", .null)])).attendance_data "c1") },
          true)) :=
  ⟨⟨rfl, (c10_clear_attendance_spec .null .null (initDM none none) "c1").1
      rfl⟩,
    ⟨rfl, (c10_clear_attendance_spec .null .null
      (initDM none (some [("c1", .null)])) "c1").2 rfl⟩⟩

/-- C3 counterexample: a complete inbound message that is malformed JSON
(`json.loads` raises `ValueError`, modelled by `parsed = none`) yields NO
response at all on the command channel — `_process_complete_message`
only logs and returns — contradicting the claim that every protocol
error is reported back to the peer as a structured error response. -/
theorem c3_malformed_json_counterexample :
    process_complete_message .null .null (initDM none none) .command
      none = (initDM none none, []) := by
  rfl

/-- C3 amended: a well-formed command object with an unrecognized command
name is answered with the structured response
`{status:"error", message:"Unknown command"}` and the store state is
unchanged, and a malformed-JSON message is dropped with no response and
no state change (logged only); in either case no exception reaches the
transport layer (the dispatcher is a total function). -/
theorem c3_protocol_errors (storageInfo memInfo : JValue) (st : DMState)
    (l : List (String × JValue)) (c : String)
    (hcmd : jget l "command" = some (.str c))
    (hc1 : c ≠ "clear_attendance") (hc2 : c ≠ "clear_all_attendance")
    (hc3 : c ≠ "get_status") :
    process_complete_message storageInfo memInfo st .command
      (some (.obj l)) = (st, [jsonError "Unknown command"]) ∧
    process_complete_message storageInfo memInfo st .command none =
      (st, []) := by
  constructor
  · simp [process_complete_message, handle_command_write, hcmd, hc1, hc2,
      hc3]
  · rfl

theorem c3_protocol_errors_witness :
    jget [("command", JValue.str "bogus")] "command" =
      some (.str "bogus") ∧
    "bogus" ≠ "clear_attendance" ∧
    "bogus" ≠ "clear_all_attendance" ∧
    "bogus" ≠ "get_status" ∧
    (process_complete_message .null .null (initDM none none) .command
      (some (.obj [("command", JValue.str "bogus")])) =
      (initDM none none, [jsonError "Unknown command"]) ∧
    process_complete_message .null .null (initDM none none) .command
      none = (initDM none none, [])) :=
  ⟨rfl, by decide, by decide, by decide,
    c3_protocol_errors .null .null (initDM none none)
      [("command", JValue.str "bogus")] "bogus" rfl (by decide) (by decide)
      (by decide)⟩

/-- C9: in `CLASS_SELECTION` with a non-empty roster of `n` classes, `UP`
moves the selection index to `(i - 1) % n` and `DOWN` to `(i + 1) % n`
(Python `%` with a positive modulus, i.e. wrapping into `[0, n)`), and
nothing else changes. -/
theorem c9_selection_wrap (st : SysState)
    (hst : st.current_state = .CLASS_SELECTION)
    (hne : st.dm.classes_data.length ≠ 0) :
    handle_button_event st .UP 0 =
      .ok { st with selected_class_index :=
        (st.selected_class_index - 1) %
          (st.dm.classes_data.length : Int) } ∧
    handle_button_event st .DOWN 0 =
      .ok { st with selected_class_index :=
        (st.selected_class_index + 1) %
          (st.dm.classes_data.length : Int) } ∧
    0 ≤ (st.selected_class_index - 1) %
      (st.dm.classes_data.length : Int) ∧
    (st.selected_class_index - 1) % (st.dm.classes_data.length : Int) <
      (st.dm.classes_data.length : Int) ∧
    0 ≤ (st.selected_class_index + 1) %
      (st.dm.classes_data.length : Int) ∧
    (st.selected_class_index + 1) % (st.dm.classes_data.length : Int) <
      (st.dm.classes_data.length : Int) := by
  have hn : ((st.dm.classes_data.length : Int)) ≠ 0 := by
    exact_mod_cast hne
  have hpos : (0 : Int) < (st.dm.classes_data.length : Int) := by
    omega
  refine ⟨?_, ?_, Int.emod_nonneg _ hn, Int.emod_lt_of_pos _ hpos,
    Int.emod_nonneg _ hn, Int.emod_lt_of_pos _ hpos⟩
  · simp [handle_button_event, hst, handle_class_selection_buttons, pymod,
      hne, Bind.bind, Except.bind]
  · simp [handle_button_event, hst, handle_class_selection_buttons, pymod,
      hne, Bind.bind, Except.bind]

/-- The concrete three-class state of the claim's instance: roster of
three classes, selection at index 0, in `CLASS_SELECTION`. -/
def c9ThreeClassState : SysState :=
  { dm := initDM (some [JValue.obj [("id", JValue.str "c1"),
      ("name", JValue.str "A"), ("students", JValue.arr [])],
    JValue.obj [("id", JValue.str "c2"), ("name", JValue.str "B"),
      ("students", JValue.arr [])],
    JValue.obj [("id", JValue.str "c3"), ("name", JValue.str "C"),
      ("students", JValue.arr [])]]) none
    current_state := .CLASS_SELECTION
    selected_class_index := 0
    current_student_index := 0
    attendance_session := none }

theorem c9_selection_wrap_witness :
    c9ThreeClassState.current_state = .CLASS_SELECTION ∧
    c9ThreeClassState.dm.classes_data.length ≠ 0 ∧
    handle_button_event c9ThreeClassState .UP 0 =
      .ok { c9ThreeClassState with selected_class_index :=
        ((0 : Int) - 1) % ((3 : Nat) : Int) } ∧
    ((0 : Int) - 1) % ((3 : Nat) : Int) = 2 :=
  ⟨rfl, by decide,
    (c9_selection_wrap c9ThreeClassState rfl (by decide)).1, by decide⟩

/-- The one valid class used in the C4 failing trace. -/
def c4OneClass : JValue :=
  .obj [("id", .str "c1"), ("name", .str "Math"),
    ("students", .arr [])]

/-- C4 failing input: starting from a fresh system, sync a one-class
roster, `SELECT` it from the main menu (entering `CLASS_SELECTION`), let
a roster sync replace the roster with the empty list (which
`save_classes` accepts: every class of an empty list is vacuously
valid), then press `UP`: `(self.selected_class_index - 1) % len(classes)`
raises `ZeroDivisionError`, which escapes `handle_button_event` to the
top-level restart handler of `AttendanceSystem.run` — contradicting the
claim that button handling never raises. -/
theorem c4_empty_roster_crash :
    runSteps (initSys (initDM none none))
      [.sync (.arr [c4OneClass]), .btn .SELECT, .sync (.arr []),
        .btn .UP] = .error .zeroDivisionError := by
  rfl
